import Mathlib

/-!
A shallow embedding of `fix_imports.py`, a one-shot tool that rewrites
module import statements in a TypeScript source tree after files were
relocated.

Strings are modelled as `List Char`.  The POSIX path functions used by the
script (`os.path.dirname`, `os.path.join`, `os.path.relpath`,
`os.path.basename`, `os.path.splitext`) are modelled segment-wise, with a
fixed process working directory `/repo`, so that
`SRC_ROOT = os.path.abspath("src")` becomes `/repo/src`.

The two `re.sub` passes of `fix_imports_in_file` are modelled by explicit
left-to-right scanners that follow the backtracking priority of the Python
regex engine for the two concrete patterns of the script (the static
pattern, compiled with DOTALL, and the dynamic-import pattern).
-/

namespace FixImports

/-- Convert a string literal to the character-list representation used
throughout the development. -/
def str (s : String) : List Char := s.data

/-- Model of the process working directory (`os.getcwd()`), fixed for the
lifetime of the run. -/
def CWD : List Char := str "/repo"

/-- Quote characters recognised by the import regexes (double and single
quote). -/
def isQuote (c : Char) : Bool := c = '"' || c = Char.ofNat 39

/-- Whitespace characters matched by the regex whitespace class (ASCII
part: space, tab, newline, carriage return, vertical tab, form feed). -/
def isWs (c : Char) : Bool :=
  c = ' ' || c = Char.ofNat 9 || c = Char.ofNat 10 || c = Char.ofNat 13 ||
  c = Char.ofNat 11 || c = Char.ofNat 12

/-- Split a character list on a separator, keeping empty fields (Python
`str.split(sep)`). -/
def splitOnChar (sep : Char) : List Char → List (List Char)
  | [] => [[]]
  | c :: rest =>
    match splitOnChar sep rest with
    | [] => if c = sep then [[], []] else [[c]]
    | r :: rs => if c = sep then [] :: r :: rs else (c :: r) :: rs

/-- Nonempty slash-separated segments of a path (the
`[x for x in s.split(sep) if x]` idiom of `posixpath.relpath`). -/
def partsOf (s : List Char) : List (List Char) :=
  (splitOnChar '/' s).filter (fun p => p ≠ [])

/-- Component loop of `posixpath.normpath` for an absolute path: drop `.`
segments, let `..` pop the previous segment (or vanish at the root). -/
def normAbsGo (acc : List (List Char)) : List (List Char) → List (List Char)
  | [] => acc.reverse
  | p :: rest =>
    if p = str "." then normAbsGo acc rest
    else if p = str ".." then normAbsGo acc.tail rest
    else normAbsGo (p :: acc) rest

/-- Normalised segments of `os.path.abspath(s)`: a relative path is first
joined to the working directory. -/
def absPartsOf (s : List Char) : List (List Char) :=
  if s.head? = some '/' then normAbsGo [] (partsOf s)
  else normAbsGo [] (partsOf (CWD ++ '/' :: s))

/-- Join path segments with slashes (`"/".join(parts)`). -/
def joinSegs : List (List Char) → List Char
  | [] => []
  | [p] => p
  | p :: rest => p ++ '/' :: joinSegs rest

/-- Length of the common segment-wise prefix of two segment lists
(`len(commonprefix([a, b]))`). -/
def commonPrefixLen : List (List Char) → List (List Char) → Nat
  | a :: as, b :: bs => if a = b then commonPrefixLen as bs + 1 else 0
  | _, _ => 0

/-- Model of `posixpath.relpath(path, start)`: make both arguments
absolute, eliminate the common segment prefix, ascend with `..` segments
and append the remaining descent. -/
def relpathL (path start : List Char) : List Char :=
  let pl := absPartsOf path
  let sl := absPartsOf start
  let i := commonPrefixLen sl pl
  let rel := List.replicate (sl.length - i) (str "..") ++ pl.drop i
  if rel = [] then str "." else joinSegs rel

/-- Model of `posixpath.dirname`: everything before the final slash, with
trailing slashes stripped unless the result is all slashes. -/
def dirnameL (p : List Char) : List Char :=
  match p.reverse.findIdx? (fun c => c = '/') with
  | none => []
  | some k =>
    let head := p.take (p.length - k)
    if head.any (fun c => c ≠ '/') then (head.reverse.dropWhile (fun c => c = '/')).reverse
    else head

/-- Model of `posixpath.basename`: everything after the final slash. -/
def basenameL (p : List Char) : List Char :=
  (p.reverse.takeWhile (fun c => c ≠ '/')).reverse

/-- Model of `posixpath.join` for two arguments. -/
def joinP (a b : List Char) : List Char :=
  if b.head? = some '/' then b
  else if a = [] ∨ a.getLast? = some '/' then a ++ b
  else a ++ '/' :: b

/-- First component of `posixpath.splitext` on a bare file name: strip the
suffix starting at the last dot, unless every character before that dot is
itself a dot. -/
def splitextFst (name : List Char) : List Char :=
  match name.reverse.findIdx? (fun c => c = '.') with
  | none => name
  | some k =>
    let d := name.length - 1 - k
    if (name.take d).any (fun c => c ≠ '.') then name.take d else name

/-- Model of `os.path.abspath` as a string. -/
def abspathL (s : List Char) : List Char := '/' :: joinSegs (absPartsOf s)

/-- The source root, `SRC_ROOT = os.path.abspath("src")`. -/
def SRC_ROOT : List Char := abspathL (str "src")

/-- The static table mapping logical component names to their new
locations relative to the source root. -/
def MAPPING : List (List Char × List Char) := [
  (str "SetupWizard", str "features/onboarding/SetupWizard"),
  (str "RecordingControls", str "features/capture/RecordingControls"),
  (str "LiveTranscript", str "features/capture/LiveTranscript"),
  (str "MeetingDetectionBanner", str "features/capture/MeetingDetectionBanner"),
  (str "VideoDiagnostics", str "features/capture/VideoDiagnostics"),
  (str "MeetingHistory", str "features/memory/MeetingHistory"),
  (str "RewindTimeline", str "features/memory/RewindTimeline"),
  (str "RewindGallery", str "features/memory/RewindGallery"),
  (str "SyncedTimeline", str "features/memory/SyncedTimeline"),
  (str "AmbientTimeline", str "features/memory/AmbientTimeline"),
  (str "ActivityTimeline", str "features/memory/ActivityTimeline"),
  (str "RecordingsLibrary", str "features/memory/RecordingsLibrary"),
  (str "AIChat", str "features/intelligence/AIChat"),
  (str "CopilotPanel", str "features/intelligence/CopilotPanel"),
  (str "MeetingIntelPanel", str "features/intelligence/MeetingIntelPanel"),
  (str "LearnedDataEditor", str "features/intelligence/LearnedDataEditor"),
  (str "EntitiesView", str "features/intelligence/EntitiesView"),
  (str "PromptBrowser", str "features/intelligence/PromptBrowser"),
  (str "PromptLibrary", str "features/intelligence/PromptLibrary"),
  (str "ComparisonLab", str "features/intelligence/ComparisonLab"),
  (str "Settings", str "features/settings/Settings"),
  (str "FullSettings", str "features/settings/FullSettings"),
  (str "AISettings", str "features/settings/AISettings"),
  (str "IngestSettings", str "features/settings/IngestSettings"),
  (str "KnowledgeBaseSettings", str "features/settings/KnowledgeBaseSettings"),
  (str "PermissionsStatus", str "features/settings/PermissionsStatus"),
  (str "ThemeSelector", str "features/settings/ThemeSelector"),
  (str "TranscriptionSettings", str "features/settings/TranscriptionSettings"),
  (str "AlwaysOnSettings", str "features/settings/AlwaysOnSettings"),
  (str "ActivityThemesSettings", str "features/settings/ActivityThemesSettings"),
  (str "InsightsView", str "features/analytics/InsightsView"),
  (str "StorageMeter", str "features/analytics/StorageMeter"),
  (str "SystemStatus", str "features/analytics/SystemStatus"),
  (str "AuditLog", str "features/analytics/AuditLog"),
  (str "AdminConsole", str "features/analytics/AdminConsole"),
  (str "ToolsConsole", str "features/analytics/ToolsConsole"),
  (str "GlobalErrorBoundary", str "components/common/GlobalErrorBoundary"),
  (str "CommandPalette", str "components/common/CommandPalette"),
  (str "SearchBar", str "components/common/SearchBar"),
  (str "KBSearch", str "components/common/KBSearch"),
  (str "Sidebar", str "components/layout/Sidebar"),
  (str "Help", str "components/layout/Help")]

/-- Model of `get_relative_path(from_file, to_target)` from the source:
relative path from the directory of `from_file` to the target joined under
`SRC_ROOT`, normalised to start with a dot. -/
def get_relative_path (from_file to_target : List Char) : List Char :=
  let from_dir := dirnameL from_file
  let target_abs := joinP SRC_ROOT to_target
  let rel := relpathL target_abs from_dir
  if rel.head? = some '.' then rel else '.' :: '/' :: rel

/-- The fixed list of shared top-level folders whose one-level-up
references are depth-corrected. -/
def foldersFixed : List (List Char) :=
  [str "lib", str "hooks", str "contexts", str "assets", str "utils", str "types"]

/-- Fuel-indexed scan of one `re.sub` pass for the depth-correction
pattern with the fixed-width negative lookbehind: replace `../<folder>` by
`../../<folder>` unless the three input characters before the match are
`../`.  The argument `prevRev` is the reversed already-scanned input
prefix, inspected by the lookbehind; the scan continues after each match
without rescanning the replacement.  Fuel at least the length of the
input makes the fuel bound irrelevant. -/
def subDepthGo (folder : List Char) : Nat → List Char → List Char → List Char
  | 0, _, s => s
  | fuel + 1, prevRev, s =>
    match s with
    | [] => []
    | c :: rest =>
      let pat := '.' :: '.' :: '/' :: folder
      if pat.isPrefixOf (c :: rest) && !((str "/..").isPrefixOf prevRev) then
        ('.' :: '.' :: '/' :: '.' :: '.' :: '/' :: folder) ++
          subDepthGo folder fuel (pat.reverse ++ prevRev) (List.drop pat.length (c :: rest))
      else
        c :: subDepthGo folder fuel (c :: prevRev) rest

/-- One `re.sub` pass for the depth-correction pattern. -/
def subDepth (folder prevRev s : List Char) : List Char :=
  subDepthGo folder s.length prevRev s

/-- Classification of the file itself as a relocated feature file: the
path relative to `SRC_ROOT` begins with segment `features` and has at
least three segments. -/
def is_moved_feature_file (filepath : List Char) : Bool :=
  let parts := splitOnChar '/' (relpathL filepath SRC_ROOT)
  (parts.head? == some (str "features")) && decide (3 ≤ parts.length)

/-- Classification as a relocated layout/common file: the path relative to
`SRC_ROOT` begins with `components` followed by `layout` or `common`.
(For a one-segment path equal to `components` the Python expression would
raise an IndexError; `main` only passes files ending in `.tsx` or `.ts`,
whose single-segment relative paths are never the bare word `components`,
so the total modelling with an optional second segment agrees with the
script on every reachable input.) -/
def is_moved_layout_file (filepath : List Char) : Bool :=
  let parts := splitOnChar '/' (relpathL filepath SRC_ROOT)
  (parts.head? == some (str "components")) &&
    ((parts[1]? == some (str "layout")) || (parts[1]? == some (str "common")))

/-- Step 1 of `fix_imports_in_file`: depth-correct the shared-folder
references, but only when the file itself was relocated. -/
def depth_correction (filepath content : List Char) : List Char :=
  if is_moved_feature_file filepath || is_moved_layout_file filepath then
    foldersFixed.foldl (fun acc folder => subDepth folder [] acc) content
  else content

/-- One matched import statement, decomposed as by the regex groups: `g1`
is group 1 (the prefix, either `import ... from ` or the dynamic
`import(`), `q` group 2 (the opening quote character), `path` group 3 (the
path literal), `g4` group 4 (the closing quote plus trailing semicolon or
parenthesis, when present). -/
structure ImpMatch where
  g1 : List Char
  q : Char
  path : List Char
  g4 : List Char
deriving DecidableEq

/-- Group 0 of a match: the full matched text. -/
def ImpMatch.full (m : ImpMatch) : List Char := m.g1 ++ m.q :: m.path ++ m.g4

/-- Lazy scan of the tail of the static pattern (DOTALL): group 3 is
everything up to the first quote character, group 4 is that quote plus a
following semicolon when present.  Returns `(path, g4, rest)`. -/
def scanPathA : List Char → Option (List Char × List Char × List Char)
  | [] => none
  | c :: rest =>
    if isQuote c then
      if rest.head? = some ';' then some ([], [c, ';'], rest.tail)
      else some ([], [c], rest)
    else
      match scanPathA rest with
      | some (p, g4, r) => some (c :: p, g4, r)
      | none => none

/-- Lazy scan of the tail of the dynamic pattern: group 3 is everything up
to the first quote character immediately followed by a closing
parenthesis; a newline aborts, since this pattern is compiled without
DOTALL.  Returns `(path, g4, rest)`. -/
def scanPathB : List Char → Option (List Char × List Char × List Char)
  | [] => none
  | c1 :: rest =>
    if isQuote c1 && rest.head? = some ')' then some ([], [c1, ')'], rest.tail)
    else if c1 = Char.ofNat 10 then none
    else
      match scanPathB rest with
      | some (p, g4, r) => some (c1 :: p, g4, r)
      | none => none

/-- Candidate continuation explored for each lazy extension of group 1 of
the static pattern: the literal `from`, at least one whitespace character
(the greedy run), the opening quote, then the path scan.  Returns
`(fromWs, q, path, g4, rest)` on success. -/
def tryCandA (u : List Char) : Option (List Char × Char × List Char × List Char × List Char) :=
  if (str "from").isPrefixOf u then
    let u1 := u.drop 4
    let w := u1.takeWhile isWs
    if w = [] then none
    else
      match u1.dropWhile isWs with
      | q :: u3 =>
        if isQuote q then
          match scanPathA u3 with
          | some (p, g4, rest) => some (str "from" ++ w, q, p, g4, rest)
          | none => none
        else none
      | [] => none
  else none

/-- The lazy middle of group 1 of the static pattern: scan forward,
returning the skipped prefix together with the first position where the
candidate continuation succeeds. -/
def searchFromA : List Char → Option (List Char × List Char × Char × List Char × List Char × List Char)
  | [] => none
  | c :: rest =>
    match tryCandA (c :: rest) with
    | some (fw, q, p, g4, r) => some ([], fw, q, p, g4, r)
    | none =>
      match searchFromA rest with
      | some (sk, fw, q, p, g4, r) => some (c :: sk, fw, q, p, g4, r)
      | none => none

/-- Anchored match of the static-import pattern at the start of `s`,
following the backtracking priority of the regex engine.  Returns the
match and the remaining input. -/
def matchAtA (s : List Char) : Option (ImpMatch × List Char) :=
  if (str "import").isPrefixOf s then
    let t := s.drop 6
    match t.head? with
    | some c0 =>
      if isWs c0 then
        match searchFromA t with
        | some (sk, fw, q, p, g4, rest) =>
          some ({ g1 := str "import" ++ sk ++ fw, q := q, path := p, g4 := g4 }, rest)
        | none => none
      else none
    | none => none
  else none

/-- Anchored match of the dynamic-import pattern at the start of `s`. -/
def matchAtB (s : List Char) : Option (ImpMatch × List Char) :=
  if (str "import(").isPrefixOf s then
    match s.drop 7 with
    | q :: t =>
      if isQuote q then
        match scanPathB t with
        | some (p, g4, rest) => some ({ g1 := str "import(", q := q, path := p, g4 := g4 }, rest)
        | none => none
      else none
    | [] => none
  else none

/-- Fuel-indexed left-to-right substitution scan for the static pattern
(`pattern.sub`): replace each leftmost non-overlapping match, advancing by
one character where no match starts.  Fuel at least the length of the
input makes the fuel bound irrelevant. -/
def subAGo (repl : ImpMatch → List Char) : Nat → List Char → List Char
  | 0, s => s
  | fuel + 1, s =>
    match matchAtA s with
    | some (m, rest) => repl m ++ subAGo repl fuel rest
    | none =>
      match s with
      | [] => []
      | c :: t => c :: subAGo repl fuel t

/-- Model of `import_pattern.sub(repl, s)`. -/
def subAWith (repl : ImpMatch → List Char) (s : List Char) : List Char :=
  subAGo repl s.length s

/-- Fuel-indexed left-to-right substitution scan for the dynamic
pattern. -/
def subBGo (repl : ImpMatch → List Char) : Nat → List Char → List Char
  | 0, s => s
  | fuel + 1, s =>
    match matchAtB s with
    | some (m, rest) => repl m ++ subBGo repl fuel rest
    | none =>
      match s with
      | [] => []
      | c :: t => c :: subBGo repl fuel t

/-- Model of `dynamic_import_pattern.sub(repl, s)`. -/
def subBWith (repl : ImpMatch → List Char) (s : List Char) : List Char :=
  subBGo repl s.length s

/-- Substring test (the Python `in` operator on strings). -/
def isInfixOfL (pat : List Char) : List Char → Bool
  | [] => pat.isPrefixOf []
  | c :: rest => pat.isPrefixOf (c :: rest) || isInfixOfL pat rest

/-- The body of the `try:` block of `replace_import`.  Every modelled
operation of the block is total, so the body always succeeds; it is
wrapped in `Except` to mirror that the Python code runs it under a
per-statement exception handler. -/
def replace_import_try (filepath : List Char) (m : ImpMatch) : Except (List Char) (List Char) :=
  if ¬ (m.path.head? = some '.') then .ok m.full
  else if (str ".css").isSuffixOf m.path then
    if isInfixOfL (str "VideoDiagnostics.module.css") m.path &&
        isInfixOfL (str "VideoDiagnostics") filepath then
      .ok m.full
    else .ok m.full
  else
    let basename := basenameL m.path
    let basename2 :=
      if (str ".tsx").isSuffixOf basename || (str ".ts").isSuffixOf basename then
        splitextFst basename
      else basename
    match List.lookup basename2 MAPPING with
    | some target =>
      let new_rel := get_relative_path filepath target
      .ok (m.g1 ++ m.q :: new_rel ++ m.q :: m.g4)
    | none =>
      if isInfixOfL (str "components/") m.path then
        match List.lookup (basenameL m.path) MAPPING with
        | some target =>
          let new_rel := get_relative_path filepath target
          .ok (m.g1 ++ m.q :: new_rel ++ m.q :: m.g4)
        | none => .ok m.full
      else .ok m.full

/-- The `except Exception` clause of `replace_import`: a raised exception
is reported and the single statement is returned unchanged. -/
def handleStatement (res : Except (List Char) (List Char)) (m : ImpMatch) : List Char :=
  match res with
  | .ok s => s
  | .error _ => m.full

/-- Model of `replace_import(match)` for the file at `filepath`. -/
def replace_import (filepath : List Char) (m : ImpMatch) : List Char :=
  handleStatement (replace_import_try filepath m) m

/-- The pure content transformation performed by `fix_imports_in_file`:
depth correction, then the static-import substitution, then the
dynamic-import substitution. -/
def fix_imports_content (filepath content : List Char) : List Char :=
  let c1 := depth_correction filepath content
  let c2 := subAWith (replace_import filepath) c1
  subBWith (replace_import filepath) c2

/-- A file system: paths mapped to contents, `none` marking a file that
cannot be opened. -/
abbrev FileSys : Type := List (List Char × Option (List Char))

/-- Model of `open(filepath).read()`: raises (an `.error`) when the file
is absent or unreadable. -/
def readFile (fs : FileSys) (p : List Char) : Except (List Char) (List Char) :=
  match List.lookup p fs with
  | some (some c) => .ok c
  | _ => .error (str "cannot open " ++ p)

/-- Replace the stored contents of path `p`. -/
def writeFile (fs : FileSys) (p c : List Char) : FileSys :=
  fs.map (fun e => if e.1 = p then (e.1, some c) else e)

/-- Model of `fix_imports_in_file(filepath)`: read, transform, write back
only when the content changed.  The function has no exception handler in
the source, so a read failure propagates to the caller. -/
def fix_imports_in_file (fs : FileSys) (filepath : List Char) : Except (List Char) FileSys :=
  match readFile fs filepath with
  | .error e => .error e
  | .ok content =>
    let new_content := fix_imports_content filepath content
    if new_content ≠ content then .ok (writeFile fs filepath new_content)
    else .ok fs

/-- Model of the loop of `main`: process the enumerated files in order.
The loop body has no exception handler in the source, so a failure while
processing one file aborts the traversal. -/
def mainRun : List (List Char) → FileSys → Except (List Char) FileSys
  | [], fs => .ok fs
  | f :: rest, fs =>
    match fix_imports_in_file fs f with
    | .ok fs2 => mainRun rest fs2
    | .error e => .error e

/-- Comparison target for the refinement property of the secondary
`components/` branch: the body of `replace_import` with that fallback
branch removed, everything else kept verbatim. -/
def replace_import_nofallback (filepath : List Char) (m : ImpMatch) : List Char :=
  handleStatement
    (if ¬ (m.path.head? = some '.') then .ok m.full
     else if (str ".css").isSuffixOf m.path then
       if isInfixOfL (str "VideoDiagnostics.module.css") m.path &&
           isInfixOfL (str "VideoDiagnostics") filepath then
         .ok m.full
       else .ok m.full
     else
       let basename := basenameL m.path
       let basename2 :=
         if (str ".tsx").isSuffixOf basename || (str ".ts").isSuffixOf basename then
           splitextFst basename
         else basename
       match List.lookup basename2 MAPPING with
       | some target =>
         let new_rel := get_relative_path filepath target
         .ok (m.g1 ++ m.q :: new_rel ++ m.q :: m.g4)
       | none => .ok m.full) m

/-- Path of an unreadable file used in the batch-processing scenarios. -/
def brokenPath : List Char := str "/repo/src/Broken.tsx"

/-- Path of a readable file with a rewritable import, enumerated after the
unreadable one. -/
def goodPath : List Char := str "/repo/src/Good.tsx"

/-- A concrete file system for the batch-processing scenarios: the first
file cannot be opened, the second is fine and contains an import that the
tool would rewrite. -/
def fsEx : FileSys :=
  [(brokenPath, none), (goodPath, some (str "import a from \"./Sidebar\";"))]

theorem prefix_decomp (pre s : List Char) (h : pre.isPrefixOf s = true) :
    s = pre ++ s.drop pre.length := by
  obtain ⟨t, rfl⟩ := List.isPrefixOf_iff_prefix.mp h
  rw [List.drop_left]

theorem scanPathA_decomp : ∀ (v p g4 r : List Char),
    scanPathA v = some (p, g4, r) → v = p ++ g4 ++ r := by
  intro v
  induction v with
  | nil => intro p g4 r h; simp [scanPathA] at h
  | cons c rest ih =>
    intro p g4 r h
    rw [scanPathA] at h
    by_cases hq : isQuote c
    · rw [if_pos hq] at h
      by_cases hsemi : rest.head? = some ';'
      · rw [if_pos hsemi] at h
        simp only [Option.some.injEq, Prod.mk.injEq] at h
        obtain ⟨h1, h2, h3⟩ := h
        subst h1; subst h2; subst h3
        cases rest with
        | nil => simp at hsemi
        | cons a t =>
          simp only [List.head?_cons, Option.some.injEq] at hsemi
          subst hsemi
          simp
      · rw [if_neg hsemi] at h
        simp only [Option.some.injEq, Prod.mk.injEq] at h
        obtain ⟨h1, h2, h3⟩ := h
        subst h1; subst h2; subst h3
        simp
    · rw [if_neg hq] at h
      split at h
      · rename_i p2 g42 r2 heq
        simp only [Option.some.injEq, Prod.mk.injEq] at h
        obtain ⟨h1, h2, h3⟩ := h
        subst h1; subst h2; subst h3
        have := ih _ _ _ heq
        simp [this]
      · simp at h

theorem scanPathB_decomp : ∀ (v p g4 r : List Char),
    scanPathB v = some (p, g4, r) → v = p ++ g4 ++ r := by
  intro v
  induction v with
  | nil => intro p g4 r h; simp [scanPathB] at h
  | cons c1 rest ih =>
    intro p g4 r h
    rw [scanPathB] at h
    by_cases hstop : isQuote c1 && rest.head? = some ')'
    · rw [if_pos hstop] at h
      simp only [Option.some.injEq, Prod.mk.injEq] at h
      obtain ⟨h1, h2, h3⟩ := h
      subst h1; subst h2; subst h3
      simp only [Bool.and_eq_true, decide_eq_true_eq] at hstop
      cases rest with
      | nil => simp at hstop
      | cons a t =>
        have := hstop.2
        simp only [List.head?_cons, Option.some.injEq] at this
        subst this
        simp
    · rw [if_neg hstop] at h
      split at h
      · simp at h
      · split at h
        · rename_i p2 g42 r2 heq
          simp only [Option.some.injEq, Prod.mk.injEq] at h
          obtain ⟨h1, h2, h3⟩ := h
          subst h1; subst h2; subst h3
          have := ih _ _ _ heq
          simp [this]
        · simp at h

theorem tryCandA_decomp (u fw p g4 r : List Char) (q : Char)
    (h : tryCandA u = some (fw, q, p, g4, r)) : u = fw ++ q :: p ++ g4 ++ r := by
  rw [tryCandA] at h
  split at h
  · rename_i hpre
    simp only at h
    split at h
    · simp at h
    · rename_i hw
      split at h
      · rename_i q2 u3 hdw
        split at h
        · rename_i hq
          split at h
          · rename_i p2 g42 r2 hscan
            simp only [Option.some.injEq, Prod.mk.injEq] at h
            obtain ⟨h1, h2, h3, h4, h5⟩ := h
            subst h1; subst h2; subst h3; subst h4; subst h5
            have hu : u = str "from" ++ u.drop 4 := prefix_decomp _ _ hpre
            have hu3 : u3 = p2 ++ g42 ++ r2 := scanPathA_decomp _ _ _ _ hscan
            have h1 : u = str "from" ++ (List.takeWhile isWs (u.drop 4) ++ (q2 :: u3)) := by
              conv_lhs => rw [hu]
              congr 1
              rw [← hdw]
              exact (List.takeWhile_append_dropWhile isWs (u.drop 4)).symm
            rw [hu3] at h1
            refine h1.trans ?_
            simp
          · simp at h
        · simp at h
      · simp at h
  · simp at h

theorem searchFromA_decomp : ∀ (t sk fw p g4 r : List Char) (q : Char),
    searchFromA t = some (sk, fw, q, p, g4, r) → t = sk ++ fw ++ q :: p ++ g4 ++ r := by
  intro t
  induction t with
  | nil => intro sk fw p g4 r q h; simp [searchFromA] at h
  | cons c rest ih =>
    intro sk fw p g4 r q h
    rw [searchFromA] at h
    split at h
    · rename_i fw2 q2 p2 g42 r2 heq
      simp only [Option.some.injEq, Prod.mk.injEq] at h
      obtain ⟨rfl, rfl, rfl, rfl, rfl, rfl⟩ := h
      have := tryCandA_decomp _ _ _ _ _ _ heq
      simpa using this
    · split at h
      · rename_i sk2 fw2 q2 p2 g42 r2 heq
        simp only [Option.some.injEq, Prod.mk.injEq] at h
        obtain ⟨rfl, rfl, rfl, rfl, rfl, rfl⟩ := h
        have := ih _ _ _ _ _ _ heq
        simp [this]
      · simp at h

theorem matchAtA_decomp (s : List Char) (m : ImpMatch) (rest : List Char)
    (h : matchAtA s = some (m, rest)) : s = m.full ++ rest := by
  rw [matchAtA] at h
  split at h
  · rename_i hpre
    simp only at h
    split at h
    · rename_i c0 hc0
      split at h
      · split at h
        · rename_i sk fw q p g4 r heq
          simp only [Option.some.injEq, Prod.mk.injEq] at h
          obtain ⟨rfl, rfl⟩ := h
          have hs : s = str "import" ++ s.drop 6 := prefix_decomp _ _ hpre
          have ht := searchFromA_decomp _ _ _ _ _ _ _ heq
          rw [hs, ht]
          simp [ImpMatch.full]
        · simp at h
      · simp at h
    · simp at h
  · simp at h

theorem matchAtB_decomp (s : List Char) (m : ImpMatch) (rest : List Char)
    (h : matchAtB s = some (m, rest)) : s = m.full ++ rest := by
  rw [matchAtB] at h
  split at h
  · rename_i hpre
    split at h
    · rename_i q t hdrop
      split at h
      · split at h
        · rename_i p g4 r heq
          simp only [Option.some.injEq, Prod.mk.injEq] at h
          obtain ⟨rfl, rfl⟩ := h
          have hs : s = str "import(" ++ s.drop 7 := prefix_decomp _ _ hpre
          have ht := scanPathB_decomp _ _ _ _ heq
          rw [hs, hdrop, ht]
          simp [ImpMatch.full]
        · simp at h
      · simp at h
    · simp at h
  · simp at h

theorem subAGo_full_id (repl : ImpMatch → List Char)
    (hrepl : ∀ m : ImpMatch, repl m = m.full) :
    ∀ (fuel : Nat) (s : List Char), subAGo repl fuel s = s := by
  intro fuel
  induction fuel with
  | zero => intro s; rfl
  | succ n ih =>
    intro s
    have hred : subAGo repl (n + 1) s =
        match matchAtA s with
        | some (m, rest) => repl m ++ subAGo repl n rest
        | none =>
          match s with
          | [] => []
          | c :: t => c :: subAGo repl n t := rfl
    rw [hred]
    split
    · rename_i m rest heq
      rw [hrepl, ih, ← matchAtA_decomp _ _ _ heq]
    · split
      · rfl
      · rw [ih]

theorem subBGo_full_id (repl : ImpMatch → List Char)
    (hrepl : ∀ m : ImpMatch, repl m = m.full) :
    ∀ (fuel : Nat) (s : List Char), subBGo repl fuel s = s := by
  intro fuel
  induction fuel with
  | zero => intro s; rfl
  | succ n ih =>
    intro s
    have hred : subBGo repl (n + 1) s =
        match matchAtB s with
        | some (m, rest) => repl m ++ subBGo repl n rest
        | none =>
          match s with
          | [] => []
          | c :: t => c :: subBGo repl n t := rfl
    rw [hred]
    split
    · rename_i m rest heq
      rw [hrepl, ih, ← matchAtB_decomp _ _ _ heq]
    · split
      · rfl
      · rw [ih]

theorem mapping_keys_no_dot : MAPPING.all (fun p => !(p.1.contains '.')) = true := by decide

theorem lookup_none_of_dot_key (k : List Char) :
    ∀ (l : List (List Char × List Char)),
      l.all (fun p => !(p.1.contains '.')) = true → k.contains '.' = true →
      List.lookup k l = none := by
  intro l
  induction l with
  | nil => intro _ _; rfl
  | cons a t ih =>
    intro hall hk
    obtain ⟨k1, v1⟩ := a
    simp only [List.all_cons, Bool.and_eq_true] at hall
    by_cases hbeq : k = k1
    · subst hbeq
      rw [hk] at hall
      simp at hall
    · have hbf : (k == k1) = false := beq_false_of_ne hbeq
      have hstep : List.lookup k ((k1, v1) :: t) =
          match k == k1 with
          | true => some v1
          | false => List.lookup k t := rfl
      rw [hstep, hbf]
      exact ih hall.2 hk

theorem contains_dot_of_dot_suffix (bn sfx : List Char) (hm : '.' ∈ sfx)
    (h : sfx.isSuffixOf bn = true) : bn.contains '.' = true := by
  obtain ⟨t, rfl⟩ := List.isSuffixOf_iff_suffix.mp h
  exact List.elem_iff.mpr (List.mem_append_right t hm)

theorem lookup_basename_of_fallback_none (m : ImpMatch)
    (hlk : List.lookup
        (if (str ".tsx").isSuffixOf (basenameL m.path) || (str ".ts").isSuffixOf (basenameL m.path)
         then splitextFst (basenameL m.path) else basenameL m.path) MAPPING = none) :
    List.lookup (basenameL m.path) MAPPING = none := by
  by_cases hext : ((str ".tsx").isSuffixOf (basenameL m.path) ||
      (str ".ts").isSuffixOf (basenameL m.path)) = true
  · rcases Bool.or_eq_true_iff.mp hext with hx | hx
    · exact lookup_none_of_dot_key _ MAPPING mapping_keys_no_dot
        (contains_dot_of_dot_suffix _ _ (by decide) hx)
    · exact lookup_none_of_dot_key _ MAPPING mapping_keys_no_dot
        (contains_dot_of_dot_suffix _ _ (by decide) hx)
  · rw [if_neg hext] at hlk
    exact hlk

/-- C1: the full rewrite is not idempotent.  For the file `src/App.tsx`
and the content `import x from "./Settings";`, one run produces
`import x from "./features/settings/Settings"";` (group 4 of the pattern
already contains the closing quote, which the substitution appends a
second time), and a second run appends yet another quote, so running the
transformation twice differs from running it once. -/
theorem fix_imports_not_idempotent_on_settings_import :
    fix_imports_content (SRC_ROOT ++ str "/App.tsx")
        (fix_imports_content (SRC_ROOT ++ str "/App.tsx") (str "import x from \"./Settings\";"))
      ≠ fix_imports_content (SRC_ROOT ++ str "/App.tsx") (str "import x from \"./Settings\";") := by
  decide

/-- C2: the substituted statement does not preserve the surrounding syntax
exactly.  For `import y from \x27./Sidebar\x27;` in `src/pages/Home.tsx`
the rewritten statement carries a duplicated closing quote: the output is
`prefix + quote + new path + quote + group 4`, and group 4 already starts
with the original closing quote, so one character is added. -/
theorem substitution_duplicates_closing_quote :
    fix_imports_content (SRC_ROOT ++ str "/pages/Home.tsx")
        (str "import y from \x27./Sidebar\x27;")
      = str "import y from \x27../components/layout/Sidebar\x27\x27;" := by
  decide

/-- C3: for a file at `src/features/capture/RecordingControls.tsx`
that imports the logical name `Sidebar`, which the mapping sends to
`components/layout/Sidebar`, the resolver returns exactly
`../../components/layout/Sidebar`. -/
theorem resolver_sidebar_from_recording_controls :
    List.lookup (str "Sidebar") MAPPING = some (str "components/layout/Sidebar") ∧
    get_relative_path (SRC_ROOT ++ str "/features/capture/RecordingControls.tsx")
        (str "components/layout/Sidebar")
      = str "../../components/layout/Sidebar" := by
  constructor
  · decide
  · decide

/-- C4: rewriting `import("./Settings")` in
`src/features/settings/FullSettings.tsx` is not byte-identical: the
resolver does collapse to the sibling reference `./Settings`, but the
substitution appends a duplicated closing quote, producing
`import("./Settings"")`. -/
theorem dynamic_same_directory_import_gains_quote :
    fix_imports_content (SRC_ROOT ++ str "/features/settings/FullSettings.tsx")
        (str "import(\"./Settings\")")
      = str "import(\"./Settings\"\")" ∧
    get_relative_path (SRC_ROOT ++ str "/features/settings/FullSettings.tsx")
        (str "features/settings/Settings")
      = str "./Settings" ∧
    str "import(\"./Settings\"\")" ≠ str "import(\"./Settings\")" := by
  refine ⟨by decide, by decide, by decide⟩

/-- C5, counterexample: with an unreadable file enumerated before a
readable one, the run does not continue with the subsequent file: the
read failure propagates out of the loop of `main` (which has no handler)
and the whole batch aborts with that error. -/
theorem mainRun_aborts_concrete :
    mainRun [brokenPath, goodPath] fsEx
      = Except.error (str "cannot open /repo/src/Broken.tsx") := by
  rfl

/-- C5, amended: when processing one file raises, the exception
propagates out of the loop of `main` and the batch aborts; the subsequent
files are not processed, whatever they are. -/
theorem mainRun_aborts_batch_on_file_error (b : List Char) (rest : List (List Char))
    (fs : FileSys) (e : List Char) (h : fix_imports_in_file fs b = Except.error e) :
    mainRun (b :: rest) fs = Except.error e := by
  rw [mainRun, h]

/-- C5, witness for the amended statement at a concrete input. -/
theorem mainRun_aborts_batch_on_file_error_witness :
    fix_imports_in_file fsEx brokenPath
        = Except.error (str "cannot open /repo/src/Broken.tsx") ∧
    mainRun [brokenPath, goodPath] fsEx
        = Except.error (str "cannot open /repo/src/Broken.tsx") :=
  ⟨rfl, mainRun_aborts_batch_on_file_error brokenPath [goodPath] fsEx _ rfl⟩

/-- C6: the per-statement exception handler contains faults.  Whatever
exception the try-block of `replace_import` raises, the handler returns
that one statement unchanged, and since the handler never propagates, a
whole file pass in which every statement resolution raises returns the
content byte-identical: every match is processed and left unchanged. -/
theorem statement_faults_leave_file_pass_unchanged (e content : List Char) :
    subAWith (fun m => handleStatement (Except.error e) m) content = content ∧
    subBWith (fun m => handleStatement (Except.error e) m) content = content ∧
    ∀ m : ImpMatch, handleStatement (Except.error e) m = m.full := by
  refine ⟨?_, ?_, fun m => rfl⟩
  · exact subAGo_full_id _ (fun m => rfl) content.length content
  · exact subBGo_full_id _ (fun m => rfl) content.length content

/-- C7, counterexample: an import whose path literal ends in `.css` is
rewritten by the depth-correction step when the containing file is a
relocated one: the full transformation changes
`import s from \x27../lib/theme.css\x27;` in
`src/features/capture/X.tsx`. -/
theorem stylesheet_import_rewritten_by_depth_pass :
    fix_imports_content (SRC_ROOT ++ str "/features/capture/X.tsx")
        (str "import s from \x27../lib/theme.css\x27;")
      = str "import s from \x27../../lib/theme.css\x27;" ∧
    str "import s from \x27../../lib/theme.css\x27;"
      ≠ str "import s from \x27../lib/theme.css\x27;" := by
  refine ⟨by decide, by decide⟩

/-- C7, amended: the component-import substitution never rewrites a
statement whose path literal ends in `.css`, regardless of whether its
basename matches a mapping key; only the depth-correction step can touch
such a statement (when the file itself is classified as relocated). -/
theorem replace_import_leaves_stylesheets (filepath : List Char) (m : ImpMatch)
    (h : (str ".css").isSuffixOf m.path = true) :
    replace_import filepath m = m.full := by
  rw [replace_import, replace_import_try]
  by_cases h1 : m.path.head? = some '.'
  · rw [if_neg (not_not_intro h1), if_pos h]
    split
    · rfl
    · rfl
  · rw [if_pos h1]
    rfl

/-- C7, witness for the amended statement at a concrete stylesheet
statement whose basename even matches a mapping key. -/
theorem replace_import_leaves_stylesheets_witness :
    (str ".css").isSuffixOf (str "./Settings.css") = true ∧
    replace_import (SRC_ROOT ++ str "/features/capture/X.tsx")
        { g1 := str "import s from ", q := '"', path := str "./Settings.css", g4 := str "\";" }
      = ImpMatch.full
          { g1 := str "import s from ", q := '"', path := str "./Settings.css", g4 := str "\";" } :=
  ⟨by decide, replace_import_leaves_stylesheets _ _ (by decide)⟩

/-- C8: for a file not classified as relocated (neither a
`features/...` file of depth at least three nor a file directly under
`components/layout` or `components/common`), the depth-correction step
returns the content byte-identical, whatever references it contains. -/
theorem depth_correction_identity_on_unmoved (filepath content : List Char)
    (h1 : is_moved_feature_file filepath = false)
    (h2 : is_moved_layout_file filepath = false) :
    depth_correction filepath content = content := by
  simp [depth_correction, h1, h2]

/-- C8, witness: a top-level file outside the relocated areas with a
textual `../lib` reference is left untouched by the depth-correction
step. -/
theorem depth_correction_identity_on_unmoved_witness :
    is_moved_feature_file (SRC_ROOT ++ str "/App.tsx") = false ∧
    is_moved_layout_file (SRC_ROOT ++ str "/App.tsx") = false ∧
    depth_correction (SRC_ROOT ++ str "/App.tsx") (str "import a from \x27../lib/helpers\x27;")
      = str "import a from \x27../lib/helpers\x27;" :=
  ⟨by decide, by decide,
    depth_correction_identity_on_unmoved _ _ (by decide) (by decide)⟩

/-- C9, counterexample: when the mapped target directory coincides with
the directory of the from-file, the resolver returns the bare string `.`,
which begins neither with `./` nor with `../`. -/
theorem resolver_bare_dot_counterexample :
    get_relative_path (SRC_ROOT ++ str "/features/settings/Settings/index.tsx")
        (str "features/settings/Settings") = str "." ∧
    (str "./").isPrefixOf (str ".") = false ∧
    (str "../").isPrefixOf (str ".") = false := by
  refine ⟨by decide, by decide, by decide⟩

/-- C9, amended: for every from-file path and every target path, the
string returned by `get_relative_path` begins with the character `.`
(the final normalisation prepends `./` exactly when the relative path
does not already start with a dot; degenerate results such as `.` or
`..` begin with a dot without beginning with `./` or `../`). -/
theorem resolver_starts_with_dot (from_file to_target : List Char) :
    (get_relative_path from_file to_target).head? = some '.' := by
  simp only [get_relative_path]
  split
  · assumption
  · rfl

/-- C10: the secondary `components/` fallback branch of `replace_import`
never produces a substitution: no mapping key contains a dot, so whenever
the extension-stripped basename misses the table, the unstripped basename
misses it as well, and `replace_import` agrees extensionally with the
same function with the fallback branch removed. -/
theorem replace_import_eq_nofallback (filepath : List Char) (m : ImpMatch) :
    replace_import filepath m = replace_import_nofallback filepath m := by
  rw [replace_import, replace_import_nofallback, replace_import_try]
  by_cases h1 : m.path.head? = some '.'
  · rw [if_neg (not_not_intro h1), if_neg (not_not_intro h1)]
    by_cases h2 : (str ".css").isSuffixOf m.path = true
    · rw [if_pos h2, if_pos h2]
    · rw [if_neg h2, if_neg h2]
      simp only []
      cases hlk : List.lookup
          (if (str ".tsx").isSuffixOf (basenameL m.path) ||
              (str ".ts").isSuffixOf (basenameL m.path)
           then splitextFst (basenameL m.path) else basenameL m.path) MAPPING with
      | some target => rfl
      | none =>
        rw [lookup_basename_of_fallback_none m hlk]
        simp only [ite_self]
  · rw [if_pos h1, if_pos h1]

end FixImports
